import Mathlib

/-!
Verification of the file-tree / coverage VS Code extension core
(`src/FileTreeProvider.ts`): a shallow embedding of the syntax-tree
symbol extractor, the class grouping, the multi-format coverage
aggregator and the path filter, with theorems settling the
specification claims.

Modelling conventions:
* Concrete syntax tree nodes (the external tree-sitter interface) are
  a nested inductive `SNode` carrying the node type tag, source text,
  positions, named fields and the full child list (anonymous
  punctuation tokens included), exactly the parts of the interface the
  code touches.
* JavaScript numbers are modelled exactly: the only arithmetic the
  code performs is `Math.round((a / b) * 100)` on integer-valued
  operands, embedded as exact integer computation with explicit
  NaN / Infinity results for the division-by-zero cases.
* JavaScript string operations (`split`, `trim`, `parseInt`,
  `toLowerCase`, `path.extname`) are implemented over character lists
  so that every definition evaluates inside the kernel.
-/

/-- A (row, column) source position, as exposed by the syntax tree
library (`node.startPosition` / `node.endPosition`). -/
structure Pos where
  row : Nat
  col : Nat
deriving DecidableEq, Repr

/-- A concrete syntax tree node.  Mirrors the external library
interface used by the code: a `type` tag, the node's source `text`,
start and end positions, named-field lookup and the full child list
(anonymous tokens such as parentheses and commas included, as in the
library's `node.children`).  A named field is stored as an index into
`children`, which is how the underlying tree relates fields to
children. -/
inductive SNode : Type where
  | mk (type : String) (text : String) (startPos endPos : Pos)
       (fields : List (String × Nat)) (children : List SNode) : SNode

/-- The `type` tag of a node (`node.type`). -/
def SNode.type : SNode → String
  | .mk t _ _ _ _ _ => t

/-- The source text of a node (`node.text`). -/
def SNode.text : SNode → String
  | .mk _ tx _ _ _ _ => tx

/-- The start position of a node (`node.startPosition`). -/
def SNode.startPos : SNode → Pos
  | .mk _ _ s _ _ _ => s

/-- The end position of a node (`node.endPosition`). -/
def SNode.endPos : SNode → Pos
  | .mk _ _ _ e _ _ => e

/-- The named-field table of a node. -/
def SNode.fields : SNode → List (String × Nat)
  | .mk _ _ _ _ f _ => f

/-- The children of a node, anonymous punctuation tokens included
(`node.children`). -/
def SNode.children : SNode → List SNode
  | .mk _ _ _ _ _ c => c

/-- Field lookup, `node.childForFieldName(name)`: `none` models the
JavaScript `undefined` result. -/
def SNode.childForFieldName (n : SNode) (name : String) : Option SNode :=
  (n.fields.lookup name).bind (fun i => n.children.get? i)

mutual
/-- Preorder (document-order) listing of all nodes of a subtree, the
root included: the order in which the code's `traverse` visits nodes
and in which the library's `descendantsOfType` returns them. -/
def SNode.preorder : SNode → List SNode
  | .mk t x s e f cs => .mk t x s e f cs :: SNode.preorderList cs

/-- Preorder listing of a forest, left to right. -/
def SNode.preorderList : List SNode → List SNode
  | [] => []
  | c :: cs => c.preorder ++ SNode.preorderList cs
end

/-- All nodes of type `t` in the subtree of `n`, in document order:
`node.descendantsOfType(t)`. -/
def SNode.descendantsOfType (n : SNode) (t : String) : List SNode :=
  n.preorder.filter (fun d => d.type == t)

mutual
/-- Preorder listing of a subtree paired with each node's ancestor
chain (nearest ancestor first).  This is the functional rendering of
the code's `traverse` combined with the `node.parent` chain walked by
`isMethodInClass`. -/
def SNode.preorderAnc : SNode → List SNode → List (SNode × List SNode)
  | .mk t x s e f cs, anc =>
    (.mk t x s e f cs, anc) :: SNode.preorderAncList cs (.mk t x s e f cs :: anc)

/-- Ancestor-annotated preorder listing of a forest. -/
def SNode.preorderAncList : List SNode → List SNode → List (SNode × List SNode)
  | [], _ => []
  | c :: cs, anc => c.preorderAnc anc ++ SNode.preorderAncList cs anc
end

/-! ## JavaScript string primitives

Implemented over character lists so that every definition evaluates
inside the kernel; each mirrors the standard JavaScript behaviour the
code relies on. -/

/-- Split a character list at every occurrence of `c` (auxiliary). -/
def splitCharAux (c : Char) : List Char → List Char → List (List Char)
  | [], acc => [acc.reverse]
  | x :: xs, acc =>
    if x == c then acc.reverse :: splitCharAux c xs []
    else splitCharAux c xs (x :: acc)

/-- JavaScript `s.split(c)` for a single-character separator; on the
empty string it yields `[""]`, as in JavaScript. -/
def jsSplit (c : Char) (s : String) : List String :=
  (splitCharAux c s.toList []).map String.mk

/-- Whitespace recognizer for `trim` (ASCII blanks, tabs, newlines). -/
def isJsSpace (c : Char) : Bool :=
  c == ' ' || c == '\t' || c == '\n' || c == '\r'

/-- JavaScript `s.trim()`. -/
def jsTrim (s : String) : String :=
  String.mk (((s.toList.dropWhile isJsSpace).reverse.dropWhile isJsSpace).reverse)

/-- Lower-casing of one ASCII character, for `toLowerCase`. -/
def asciiLower (c : Char) : Char :=
  if 'A' ≤ c && c ≤ 'Z' then Char.ofNat (c.toNat + 32) else c

/-- JavaScript `s.toLowerCase()` (ASCII range, which is all the code
compares against). -/
def jsToLower (s : String) : String :=
  String.mk (s.toList.map asciiLower)

/-- Decimal digit character. -/
def digitChar (n : Nat) : Char :=
  match n with
  | 0 => '0' | 1 => '1' | 2 => '2' | 3 => '3' | 4 => '4'
  | 5 => '5' | 6 => '6' | 7 => '7' | 8 => '8' | 9 => '9'
  | _ => '*'

/-- Decimal rendering of a natural number (auxiliary, fuel-indexed so
that it is structural and kernel-evaluable). -/
def natToStrAux : Nat → Nat → List Char
  | 0, _ => []
  | fuel + 1, n =>
    if n < 10 then [digitChar n]
    else natToStrAux fuel (n / 10) ++ [digitChar (n % 10)]

/-- Decimal rendering of a natural number, as JavaScript template
interpolation renders a non-negative integer index. -/
def natToStr (n : Nat) : String := String.mk (natToStrAux (n + 1) n)

/-- Decimal rendering of a JavaScript integer (for template
interpolation of possibly negative values such as `indexOf` results). -/
def intToStr (i : Int) : String :=
  if i < 0 then "-" ++ natToStr i.natAbs else natToStr i.natAbs

/-- JavaScript truthy-or-else on an optional string: `a || b` where
`a` may be `undefined` or the (falsy) empty string.  The code uses
this shape everywhere it derives labels (`... ?.text || 'fallback'`). -/
def jsOr (a : Option String) (b : String) : String :=
  match a with
  | none => b
  | some s => if s == "" then b else s

/-- JavaScript truthiness of an optional string value (used for
`packageName ? ... : ...`). -/
def jsTruthy (a : Option String) : Bool :=
  match a with
  | none => false
  | some s => !(s == "")

/-! ## JavaScript `Map` with string keys

`Map.set` updates an existing key in place (keeping its insertion
position) and appends a new key at the end; iteration follows
insertion order.  This models the `classGroups` map of
`getClassGroups` and the process-wide `coverageData` map. -/

/-- JavaScript `map.set(k, v)`. -/
def jsMapSet {α : Type} (m : List (String × α)) (k : String) (v : α) :
    List (String × α) :=
  if m.any (fun kv => kv.1 == k) then
    m.map (fun kv => if kv.1 == k then (k, v) else kv)
  else m ++ [(k, v)]

/-- JavaScript `map.get(k)` (`none` models `undefined`). -/
def jsMapGet {α : Type} (m : List (String × α)) (k : String) : Option α :=
  (m.find? (fun kv => kv.1 == k)).map (fun kv => kv.2)

/-! ## Symbol extractor (`FileTreeProvider.findMethods`,
`isMethodInClass`, `getClassGroups`, `getMethodsForClass`) -/

/-- Callable node collection, `findMethods` (lines 768-776): a full
preorder traversal collecting every `function_declaration`,
`method_definition` and `arrow_function` node.  Each node is paired
with its ancestor chain so that the caller's `isMethodInClass`
(a `node.parent` walk) can be expressed functionally. -/
def findMethodsAnc (root : SNode) : List (SNode × List SNode) :=
  (root.preorderAnc []).filter (fun p =>
    p.1.type == "function_declaration" || p.1.type == "method_definition" ||
      p.1.type == "arrow_function")

/-- Membership test `isMethodInClass` (lines 709-718): walk the
ancestor chain; the node is in a class iff some ancestor is a
`class_declaration`. -/
def isMethodInClassAnc (anc : List SNode) : Bool :=
  anc.any (fun a => a.type == "class_declaration")

/-- Name of a class node as `getClassGroups` derives it:
`classNode.childForFieldName('name')?.text || 'Anonymous Class'`. -/
def classNameOf (c : SNode) : String :=
  jsOr ((c.childForFieldName "name").map SNode.text) "Anonymous Class"

/-- The `classGroups` map built by `getClassGroups` (lines 630-644):
for each `class_declaration` of the file, in document order, the map
entry for the class name is reset to `[]` and then every
`method_definition` of the class subtree (the library's recursive
`descendantsOfType`) is pushed onto it. -/
def classGroupsMap (root : SNode) : List (String × List SNode) :=
  (root.descendantsOfType "class_declaration").foldl
    (fun m c =>
      let nm := classNameOf c
      let m1 := jsMapSet m nm []
      (c.descendantsOfType "method_definition").foldl
        (fun acc meth =>
          match jsMapGet acc nm with
          | some ms => jsMapSet acc nm (ms ++ [meth])
          | none => acc)
        m1)
    []

/-- The standalone (`Global Scope`) callables of a file: the
`findMethods` result filtered by `!isMethodInClass` (lines 646-651 and
693-695). -/
def globalScopeNodes (root : SNode) : List SNode :=
  ((findMethodsAnc root).filter (fun p => !isMethodInClassAnc p.2)).map (fun p => p.1)

/-- Kinds of tree items the provider creates. -/
inductive ItemKind : Type where
  | folder | file | classGroup | method
deriving DecidableEq, Repr

/-- Result of `getClassGroups` (lines 653-678): one `Class` item per
class-map entry with a non-empty method list, in map insertion order,
then a `Global Scope` item when the default group is non-empty.  Each
item is its label paired with its kind. -/
def getClassGroupsItems (root : SNode) : List (String × ItemKind) :=
  ((classGroupsMap root).filter (fun kv => !kv.2.isEmpty)).map
      (fun kv => (kv.1, ItemKind.classGroup)) ++
    (if (globalScopeNodes root).isEmpty then []
     else [("Global Scope", ItemKind.classGroup)])

/-- Method nodes listed for one group by `getMethodsForClass`
(lines 691-704): for `Global Scope` the standalone callables; for any
other label, the first `class_declaration` whose `name` field text
equals the label contributes its `method_definition` descendants
(recursively, via the library's `descendantsOfType`), and a label
matching no class yields the empty list. -/
def getMethodsForClassNodes (root : SNode) (className : String) : List SNode :=
  if className == "Global Scope" then globalScopeNodes root
  else
    match (root.descendantsOfType "class_declaration").find?
        (fun n => ((n.childForFieldName "name").map SNode.text) == some className) with
    | some classNode => classNode.descendantsOfType "method_definition"
    | none => []

/-- Start positions of every symbol returned by listing all surfaced
groups of a file, in surfacing order: the collection the
deduplication claim quantifies over. -/
def allGroupPositions (root : SNode) : List Pos :=
  ((getClassGroupsItems root).map (fun it => it.1)).flatMap
    (fun g => (getMethodsForClassNodes root g).map SNode.startPos)

/-! ## Label derivation (`getMethodsFromFile` lines 546-593,
`createMethodTreeItem` lines 720-734) -/

/-- Shallow identity key of a node.  JavaScript `indexOf` compares by
object identity; within one child list, children occupy pairwise
disjoint source ranges, so the shallow key identifies a child
uniquely. -/
def nodeKey (n : SNode) : String × String × Pos × Pos :=
  (n.type, n.text, n.startPos, n.endPos)

/-- JavaScript `Array.from(list).indexOf(n)`: first index of `n` in
`list` (by node identity), `-1` when absent. -/
def jsIndexOf (list : List SNode) (n : SNode) : Int :=
  match list.findIdx? (fun m => nodeKey m == nodeKey n) with
  | some i => (i : Int)
  | none => -1

/-- Source line addressed by `content.split('\n')[row]`; rows always
lie in range for nodes obtained by parsing `content` (an out-of-range
row would throw in the code and be caught by the surrounding
try/catch of `getMethodsFromFile`). -/
def lineAt (content : String) (row : Nat) : String :=
  (jsSplit '\n' content).getD row ""

/-- The fallback label: a lambda glyph followed by the first 30
characters of the trimmed source line of the function's start,
ellipsized when truncated (lines 589-592). -/
def lambdaFallbackLabel (content : String) (row : Nat) : String :=
  let lineContent := jsTrim (lineAt content row)
  "λ " ++ String.mk (lineContent.toList.take 30) ++
    (if lineContent.toList.length > 30 then "..." else "")

/-- Label derivation of `getMethodsFromFile` (lines 546-593), the
`methodNodes.map` callback.  `parent` and `gp` stand for
`node.parent` and `node.parent.parent` (`none` models a missing
parent). -/
def methodLabelFromFile (content : String) (node : SNode)
    (parent gp : Option SNode) : String :=
  if node.type == "function_declaration" then
    jsOr ((node.childForFieldName "name").map SNode.text) "<anonymous>"
  else if node.type == "method_definition" then
    jsOr ((node.childForFieldName "name").map SNode.text) "<anonymous>"
  else if node.type == "variable_declaration" then
    jsOr (((node.descendantsOfType "variable_declarator").head?).bind
      (fun d => (d.childForFieldName "name").map SNode.text)) "<anonymous>"
  else if node.type == "arrow_function" then
    if (parent.map SNode.type) == some "variable_declarator" then
      jsOr ((parent.bind (fun p => p.childForFieldName "name")).map SNode.text)
        "<anonymous>"
    else if (parent.map SNode.type) == some "assignment_expression" then
      let left := parent.bind (fun p => p.childForFieldName "left")
      if (left.map SNode.type) == some "member_expression" then
        let property := (left.bind (fun l => l.childForFieldName "property")).map
          SNode.text
        let object := (left.bind (fun l => l.childForFieldName "object")).map
          SNode.text
        if jsTruthy object then
          (object.getD "") ++ "." ++ (property.getD "undefined")
        else jsOr property "<anonymous>"
      else jsOr (left.map SNode.text) "<anonymous>"
    else if (parent.map SNode.type) == some "property_definition" then
      jsOr ((parent.bind (fun p => p.childForFieldName "name")).map SNode.text)
        "<anonymous>"
    else if (parent.map SNode.type) == some "pair" ||
        (parent.map SNode.type) == some "object_property" then
      jsOr ((parent.bind (fun p => p.childForFieldName "key")).map SNode.text)
        "<anonymous>"
    else if (parent.map SNode.type) == some "arguments" then
      if (gp.map SNode.type) == some "call_expression" then
        let callee := (gp.bind (fun g => g.childForFieldName "function")).map
          SNode.text
        let argIndex := jsIndexOf ((parent.map SNode.children).getD []) node
        jsOr callee "" ++ " callback[" ++ intToStr argIndex ++ "]"
      else "callback"
    else lambdaFallbackLabel content node.startPos.row
  else ""

/-- Label derivation of `createMethodTreeItem` (lines 720-734), used
by the per-group method listing: only function declarations, method
definitions and arrows under a `variable_declarator` or
`assignment_expression` parent receive a label; every other node
keeps the initial empty string. -/
def createMethodItemLabel (node : SNode) (parent : Option SNode) : String :=
  if node.type == "function_declaration" then
    jsOr ((node.childForFieldName "name").map SNode.text) "<anonymous>"
  else if node.type == "method_definition" then
    jsOr ((node.childForFieldName "name").map SNode.text) "<anonymous>"
  else if node.type == "arrow_function" then
    if (parent.map SNode.type) == some "variable_declarator" then
      jsOr ((parent.bind (fun p => p.childForFieldName "name")).map SNode.text)
        "<anonymous>"
    else if (parent.map SNode.type) == some "assignment_expression" then
      jsOr ((parent.bind (fun p => p.childForFieldName "left")).map SNode.text)
        "<anonymous>"
    else ""
  else ""

/-! ## Grammar selection

Each of the three parsing operations computes
`ext = path.extname(filePath).toLowerCase()` and selects
`ext === '.ts' ? this.tsParser : this.jsParser`
(`getMethodsFromFile` lines 495-497, `getClassGroups` lines 625-626,
`getMethodsForClass` lines 687-688). -/

/-- The two grammars the provider constructs (lines 55-58). -/
inductive Grammar : Type where
  | javascript | typescript
deriving DecidableEq, Repr

/-- Node's `path.extname`: the suffix of the base name starting at its
last dot, empty when the base name has no dot or only a leading dot. -/
def extname (p : String) : String :=
  let base := ((jsSplit '/' p).getLastD "").toList
  match ((List.range base.length).filter
      (fun i => base.getD i ' ' == '.')).getLast? with
  | some i => if 0 < i then String.mk (base.drop i) else ""
  | none => ""

/-- Grammar selected by `getMethodsFromFile` (lines 495-497). -/
def getMethodsFromFileGrammar (filePath : String) : Grammar :=
  if jsToLower (extname filePath) == ".ts" then Grammar.typescript
  else Grammar.javascript

/-- Grammar selected by `getClassGroups` (lines 625-626). -/
def getClassGroupsGrammar (filePath : String) : Grammar :=
  if jsToLower (extname filePath) == ".ts" then Grammar.typescript
  else Grammar.javascript

/-- Grammar selected by `getMethodsForClass` (lines 687-688). -/
def getMethodsForClassGrammar (filePath : String) : Grammar :=
  if jsToLower (extname filePath) == ".ts" then Grammar.typescript
  else Grammar.javascript

/-! ## Failure behaviour of the two group operations

`getClassGroups` (lines 622-683) wraps its whole body, the
`fs.readFileSync` included, in try/catch and returns `[]` on any
error.  `getMethodsForClass` (lines 685-707) performs the same
`fs.readFileSync` with no try/catch: a read failure propagates to the
caller as a rejected promise.  The fallible read-and-parse step is
modelled as an `Except` value (tree-sitter's `parse` itself never
throws; the failure source is the file read). -/

/-- `getClassGroups` over a fallible read: the surrounding try/catch
(lines 623, 679-682) turns any failure into the empty item list. -/
def getClassGroupsChecked (readResult : Except Unit SNode) :
    List (String × ItemKind) :=
  match readResult with
  | .error _ => []
  | .ok root => getClassGroupsItems root

/-- `getMethodsForClass` over a fallible read: the body has no
try/catch, so a read failure propagates to the caller instead of
producing a list. -/
def getMethodsForClassChecked (readResult : Except Unit SNode)
    (className : String) : Except Unit (List SNode) :=
  readResult.map (fun root => getMethodsForClassNodes root className)

/-! ## Coverage aggregator (`updateCoverageData`, `updateFromCobertura`,
`updateFromJacoco`, `updateFromLcov`, `parseLcov`, `getFileCoverage`) -/

/-- A JavaScript number as the aggregator produces it: an (exact)
integer, `NaN`, or a signed infinity.  Every number the aggregator
stores is the result of `Math.round`, so non-integral finite values
never occur. -/
inductive JSNum : Type where
  | int (n : Int)
  | nan
  | inf
  | ninf
deriving DecidableEq, Repr

/-- JavaScript comparison `x > y` restricted to the shapes that occur
(`parseInt(...) > 0` checks): any comparison with `NaN` is false. -/
def jsGtZero (x : JSNum) : Bool :=
  match x with
  | .int n => 0 < n
  | .nan => false
  | .inf => true
  | .ninf => false

/-- The aggregator's arithmetic pattern `Math.round((a / b) * 100)`,
exactly.  For finite integer operands the result is the floor of
`100 * a / b + 1/2`, computed as exact integer arithmetic
(`Math.round` rounds half toward positive infinity); `b = 0` follows
IEEE: `0 / 0` is `NaN` and otherwise the quotient is a signed
infinity, both preserved by `Math.round`. -/
def roundPct (a b : JSNum) : JSNum :=
  match a, b with
  | .int x, .int y =>
    if y = 0 then
      if x = 0 then .nan else if 0 < x then .inf else .ninf
    else .int (Int.fdiv (200 * x + y) (2 * y))
  | .nan, _ => .nan
  | _, .nan => .nan
  | .inf, .int y => if y < 0 then .ninf else .inf
  | .ninf, .int y => if y < 0 then .inf else .ninf
  | .int _, .inf => .int 0
  | .int _, .ninf => .int 0
  | .inf, .inf => .nan
  | .inf, .ninf => .nan
  | .ninf, .inf => .nan
  | .ninf, .ninf => .nan

/-- JavaScript `parseInt` on an optional string (a missing value is
`undefined`, which parses to `NaN`): trims, reads an optional sign and
then the leading decimal digits; no digits means `NaN`.  (The radix
prefixes of full `parseInt` never occur in coverage counters.) -/
def jsParseInt (data : Option String) : JSNum :=
  match data with
  | none => .nan
  | some s =>
    let cs := (jsTrim s).toList
    let (sign, rest) :=
      match cs with
      | '-' :: r => ((-1 : Int), r)
      | '+' :: r => ((1 : Int), r)
      | r => ((1 : Int), r)
    let digits := rest.takeWhile (fun c => c.isDigit)
    if digits.isEmpty then .nan
    else .int (sign * (digits.foldl (fun a c => a * 10 + ((c.toNat - 48 : Nat) : Int)) 0))

/-- Node's `path.resolve(workspacePath, p)` for the shapes that occur:
an absolute `p` stands alone, a relative one is joined to the
workspace root. -/
def resolvePath (ws p : String) : String :=
  if p.toList.head? == some '/' then p else ws ++ "/" ++ p

/-- Node's `path.join(a, b)`. -/
def joinPath (a b : String) : String := a ++ "/" ++ b

/-- JavaScript `s.replace(/\./g, '/')`. -/
def dotsToSlashes (s : String) : String :=
  String.mk (s.toList.map (fun c => if c == '.' then '/' else c))

/-- One LCOV record's `lines` slot as `parseLcov` builds it. -/
structure LcovLines where
  found : JSNum
  hit : JSNum
deriving DecidableEq, Repr

/-- One LCOV record: `file` is the text after the `SF:` marker
(`none` models the `undefined` stored when an `SF` line has no colon
part). -/
structure LcovRecord where
  file : Option String
  lines : Option LcovLines
deriving DecidableEq, Repr

/-- Mutable-parse state of `parseLcov`: the records list is kept in
reverse (most recent first); `isOpen` says whether `currentRecord`
still aliases the most recent record (it is set by `SF` and cleared
by `end_of_record`). -/
structure LcovState where
  recsRev : List LcovRecord
  isOpen : Bool
deriving DecidableEq, Repr

/-- One loop iteration of `parseLcov` (lines 236-266): split the
trimmed line at colons, dispatch on the marker.  `LF` creates the
`lines` slot when absent and sets `found`; `LH` sets `hit` only when
the `lines` slot already exists; any other marker is ignored. -/
def lcovStep (st : LcovState) (line : String) : LcovState :=
  let parts := jsSplit ':' (jsTrim line)
  let ty := parts.getD 0 ""
  let data := parts.get? 1
  if ty == "SF" then
    { recsRev := { file := data, lines := none } :: st.recsRev, isOpen := true }
  else if ty == "LF" then
    match st.isOpen, st.recsRev with
    | true, r :: rest =>
      let prev := r.lines.getD { found := .int 0, hit := .int 0 }
      { st with recsRev :=
          { r with lines := some { prev with found := jsParseInt data } } :: rest }
    | _, _ => st
  else if ty == "LH" then
    match st.isOpen, st.recsRev with
    | true, r :: rest =>
      match r.lines with
      | some l =>
        { st with recsRev :=
            { r with lines := some { l with hit := jsParseInt data } } :: rest }
      | none => st
    | _, _ => st
  else if ty == "end_of_record" then
    { st with isOpen := false }
  else st

/-- The `parseLcov` parse loop (lines 220-269): split the content at
newlines, run the per-line step, return records in document order. -/
def parseLcov (content : String) : List LcovRecord :=
  ((jsSplit '\n' content).foldl lcovStep { recsRev := [], isOpen := false }).recsRev.reverse

/-- The writes `updateFromLcov` performs (lines 208-214), in order:
one per record owning a `lines` slot, keyed by the resolved path,
valued `Math.round((hit / found) * 100)`.  A record stored with an
`undefined` file name would make `path.resolve` throw; the
surrounding try/catch then abandons the loop, keeping the writes made
so far. -/
def lcovWrites (ws : String) : List LcovRecord → List (String × JSNum)
  | [] => []
  | r :: rest =>
    match r.lines with
    | none => lcovWrites ws rest
    | some l =>
      match r.file with
      | none => []
      | some f => (resolvePath ws f, roundPct l.hit l.found) :: lcovWrites ws rest

/-- The LCOV aggregation step: `none` content models a missing or
unreadable report file, which contributes nothing (lines 200-203). -/
def updateFromLcovWrites (ws : String) (content : Option String) :
    List (String × JSNum) :=
  match content with
  | none => []
  | some c => lcovWrites ws (parseLcov c)

/-- One `<class>` element of a Cobertura report as `xml2js` presents
it: the `filename` attribute and, when the class has a `<lines>`
element with `<line>` children, their `hits` attribute strings
(`none` models a missing attribute). -/
structure CobClass where
  filename : String
  line : Option (List (Option String))
deriving DecidableEq, Repr

/-- The writes `updateFromCobertura` performs (lines 130-148), one
per class element carrying line data, iterating packages then
classes in document order (the input list is that flattened
iteration): a line is covered when `parseInt(hits) > 0`, and the
stored value is `Math.round((coveredLines / totalLines) * 100)` keyed
by the resolved `filename`.  `none` input models a missing,
unreadable or malformed report file (lines 120-123, 149-151). -/
def updateFromCoberturaWrites (ws : String) (input : Option (List CobClass)) :
    List (String × JSNum) :=
  match input with
  | none => []
  | some classes =>
    classes.flatMap (fun cls =>
      match cls.line with
      | none => []
      | some lines =>
        let totalLines := (lines.length : Int)
        let coveredLines :=
          ((lines.filter (fun l => jsGtZero (jsParseInt l))).length : Int)
        [(resolvePath ws cls.filename, roundPct (.int coveredLines) (.int totalLines))])

/-- One `<sourcefile>` element of a JaCoCo report: the `name`
attribute and the `(ci, cb)` attribute strings of its `<line>`
children (`sourceFile.line || []` makes a missing list empty). -/
structure JacSourcefile where
  name : String
  line : List (Option String × Option String)
deriving DecidableEq, Repr

/-- One `<package>` element of a JaCoCo report. -/
structure JacPackage where
  name : Option String
  sourcefile : List JacSourcefile
deriving DecidableEq, Repr

/-- The writes `updateFromJacoco` performs (lines 167-190): per
source file with at least one line element, a line is covered when
`parseInt(ci) > 0 || parseInt(cb) > 0`; the key joins the package
name (dots turned to slashes) with the file name when the package
name is truthy, and the stored value is again
`Math.round((coveredLines / totalLines) * 100)`.  `none` input models
a missing, unreadable or malformed report file. -/
def updateFromJacocoWrites (ws : String) (input : Option (List JacPackage)) :
    List (String × JSNum) :=
  match input with
  | none => []
  | some pkgs =>
    pkgs.flatMap (fun pkg =>
      pkg.sourcefile.flatMap (fun sf =>
        let fullPath :=
          if jsTruthy pkg.name then joinPath (dotsToSlashes (pkg.name.getD "")) sf.name
          else sf.name
        if sf.line.length > 0 then
          let totalLines := (sf.line.length : Int)
          let coveredLines :=
            ((sf.line.filter (fun l =>
              jsGtZero (jsParseInt l.1) || jsGtZero (jsParseInt l.2))).length : Int)
          [(resolvePath ws fullPath, roundPct (.int coveredLines) (.int totalLines))]
        else []))

/-- The process-wide coverage map (`FileTreeProvider.coverageData`). -/
abbrev CovMap : Type := List (String × JSNum)

/-- Application of one format's write batch to the shared map, write
by write, via `Map.set`. -/
def applyWrites (m : CovMap) (ws : List (String × JSNum)) : CovMap :=
  ws.foldl (fun acc kv => jsMapSet acc kv.1 kv.2) m

/-- `getFileCoverage` (lines 97-99): a plain `Map.get` on the shared
map. -/
def getFileCoverage (m : CovMap) (filePath : String) : Option JSNum :=
  jsMapGet m filePath

/-- The inputs of one `refresh`: the workspace root and the three
(optional) report files, each already in its post-`xml2js` /
raw-text shape. -/
structure RefreshInput where
  ws : String
  cobertura : Option (List CobClass)
  jacoco : Option (List JacPackage)
  lcov : Option String

/-- The three per-format aggregation steps of `updateCoverageData`
(lines 109-113). -/
inductive Fmt : Type where
  | cobertura | jacoco | lcov
deriving DecidableEq, Repr

/-- The write batch a format contributes for a given refresh input. -/
def fmtWrites (inp : RefreshInput) : Fmt → List (String × JSNum)
  | .cobertura => updateFromCoberturaWrites inp.ws inp.cobertura
  | .jacoco => updateFromJacocoWrites inp.ws inp.jacoco
  | .lcov => updateFromLcovWrites inp.ws inp.lcov

/-- Map states observable during one `refresh`: the three update
functions run under `Promise.all` and each mutates the shared map in
place in one synchronous stretch, so between any two formats' write
batches the event loop can run a reader.  `order` is the sequence in
which the three batches reach the map (the interleaving of the
concurrent promises); the observable states are the initial map and
the state after each completed batch. -/
def refreshStates (m : CovMap) (inp : RefreshInput) : List Fmt → List CovMap
  | [] => [m]
  | f :: rest => m :: refreshStates (applyWrites m (fmtWrites inp f)) inp rest

/-- The map after an entire `refresh` under batch arrival order
`order`. -/
def refreshFinal (m : CovMap) (inp : RefreshInput) (order : List Fmt) : CovMap :=
  order.foldl (fun acc f => applyWrites acc (fmtWrites inp f)) m

/-- The six possible arrival orders of the three format batches. -/
def allOrders : List (List Fmt) :=
  [[.cobertura, .jacoco, .lcov], [.cobertura, .lcov, .jacoco],
   [.jacoco, .cobertura, .lcov], [.jacoco, .lcov, .cobertura],
   [.lcov, .cobertura, .jacoco], [.lcov, .jacoco, .cobertura]]

/-- Integer-percentage test: the value is a finite integer within
`[0, 100]`. -/
def isIntPercent (v : JSNum) : Bool :=
  match v with
  | .int n => 0 ≤ n && n ≤ 100
  | _ => false

/-! ## Path filter (`getFileItems`, lines 399-448)

Filesystem paths are modelled as component lists (the code joins
components with `/`; the sentinel `node_modules` contains no
separator, so the code's substring test `dirPath.includes(...)` over
the joined string is exactly a per-component substring test). -/

/-- Substring containment, JavaScript `s.includes(pat)`. -/
def strContains (s pat : String) : Bool :=
  (List.range (s.toList.length + 1)).any
    (fun i => (s.toList.drop i).take pat.toList.length == pat.toList)

/-- The guard `dirPath.includes('node_modules')` of line 400, over a
component-list path. -/
def pathIncludesNodeModules (p : List String) : Bool :=
  p.any (fun c => strContains c "node_modules")

/-- A filesystem entry as `readdirSync` + `statSync` present it. -/
inductive FSEntry : Type where
  | file (name : String)
  | dir (name : String) (entries : List FSEntry)

/-- Name of a filesystem entry. -/
def FSEntry.name : FSEntry → String
  | .file n => n
  | .dir n _ => n

/-- A navigation item produced by the directory listing. -/
structure FileItem where
  label : String
  kind : ItemKind
  path : List String
deriving DecidableEq, Repr

mutual
/-- Items contributed by the entries of one directory, in listing
order: the `entries.forEach` body of `getFileItems` (lines 407-445). -/
def fsItemsList (isTest : String → Bool) (isIgn : List String → Bool)
    (dirPath : List String) : List FSEntry → List FileItem
  | [] => []
  | e :: es =>
    fsItemsEntry isTest isIgn dirPath e ++ fsItemsList isTest isIgn dirPath es

/-- Items contributed by one directory entry: the sentinel and
test-file names are skipped (line 408), ignored paths are skipped
(line 415); a subdirectory is surfaced only when its own recursive
listing (which re-applies the `includes('node_modules')` guard of
line 400) is non-empty (lines 422-432); a file is surfaced when its
extension is a recognized source extension and it is not a test file
(lines 433-443). -/
def fsItemsEntry (isTest : String → Bool) (isIgn : List String → Bool)
    (dirPath : List String) : FSEntry → List FileItem
  | .file name =>
    if name == "node_modules" || isTest name then []
    else
      let fullPath := dirPath ++ [name]
      if isIgn fullPath then []
      else
        let ext := jsToLower (extname name)
        if (ext == ".js" || ext == ".ts" || ext == ".jsx" || ext == ".tsx") &&
            !isTest name then
          [{ label := name, kind := ItemKind.file, path := fullPath }]
        else []
  | .dir name entries =>
    if name == "node_modules" || isTest name then []
    else
      let fullPath := dirPath ++ [name]
      if isIgn fullPath then []
      else
        let subItems :=
          if pathIncludesNodeModules fullPath then []
          else fsItemsList isTest isIgn fullPath entries
        if subItems.isEmpty then []
        else [{ label := name, kind := ItemKind.folder, path := fullPath }]
end

/-- `getFileItems(dirPath)` (lines 399-448): the guard of line 400,
then the per-entry loop.  (The `existsSync` half of the guard is
outside the model: the modelled directory tree is the existing one.) -/
def getFileItems (isTest : String → Bool) (isIgn : List String → Bool)
    (dirPath : List String) (entries : List FSEntry) : List FileItem :=
  if pathIncludesNodeModules dirPath then []
  else fsItemsList isTest isIgn dirPath entries

mutual
/-- Listings reachable by expanding one entry's subtree: for a
subdirectory, the items of its own `getFileItems` listing plus
everything reachable below.  (Recursion descends into every
subdirectory, a superset of the folders the UI actually expands, so a
safety property proved over it covers every reachable listing.) -/
def collectDeepEntry (isTest : String → Bool) (isIgn : List String → Bool)
    (dirPath : List String) : FSEntry → List FileItem
  | .file _ => []
  | .dir name sub =>
    getFileItems isTest isIgn (dirPath ++ [name]) sub ++
      collectDeepList isTest isIgn (dirPath ++ [name]) sub

/-- Listings reachable below any entry of a directory. -/
def collectDeepList (isTest : String → Bool) (isIgn : List String → Bool)
    (dirPath : List String) : List FSEntry → List FileItem
  | [] => []
  | e :: es =>
    collectDeepEntry isTest isIgn dirPath e ++
      collectDeepList isTest isIgn dirPath es
end

/-- Transitive expansion of the directory listing: this directory's
items plus every item any reachable subdirectory listing can ever
surface. -/
def collectAllItems (isTest : String → Bool) (isIgn : List String → Bool)
    (dirPath : List String) (entries : List FSEntry) : List FileItem :=
  getFileItems isTest isIgn dirPath entries ++
    collectDeepList isTest isIgn dirPath entries

/-- A path that is not inside (nor itself) a dependency directory: no
component equals the sentinel. -/
def cleanPath (p : List String) : Bool :=
  p.all (fun c => !(c == "node_modules"))

/-! ## Concrete example: a class nested inside a method

Parse shape of the source

```
class Outer \x7b
  m() \x7b
    class Inner \x7b
      n() \x7b\x7d
    \x7d
  \x7d
\x7d
```

with the usual tree-sitter node types; node texts are elided to the
parts the extractor reads (name fields). -/

/-- Example: identifier of the inner method `n`. -/
def exIdN : SNode := .mk "property_identifier" "n" ⟨3, 6⟩ ⟨3, 7⟩ [] []

/-- Example: parameter list of `n`. -/
def exParamsN : SNode := .mk "formal_parameters" "()" ⟨3, 7⟩ ⟨3, 9⟩ [] []

/-- Example: body of `n`. -/
def exBlockN : SNode := .mk "statement_block" "" ⟨3, 10⟩ ⟨3, 12⟩ [] []

/-- Example: the inner method definition `n`. -/
def exMethodN : SNode :=
  .mk "method_definition" "n() ..." ⟨3, 6⟩ ⟨3, 12⟩ [("name", 0)]
    [exIdN, exParamsN, exBlockN]

/-- Example: identifier of the inner class `Inner`. -/
def exIdInner : SNode := .mk "identifier" "Inner" ⟨2, 10⟩ ⟨2, 15⟩ [] []

/-- Example: class body of `Inner`. -/
def exBodyInner : SNode := .mk "class_body" "" ⟨2, 16⟩ ⟨4, 5⟩ [] [exMethodN]

/-- Example: the nested class declaration `Inner`. -/
def exClassInner : SNode :=
  .mk "class_declaration" "class Inner ..." ⟨2, 4⟩ ⟨4, 5⟩ [("name", 1)]
    [.mk "class" "class" ⟨2, 4⟩ ⟨2, 9⟩ [] [], exIdInner, exBodyInner]

/-- Example: identifier of the outer method `m`. -/
def exIdM : SNode := .mk "property_identifier" "m" ⟨1, 2⟩ ⟨1, 3⟩ [] []

/-- Example: parameter list of `m`. -/
def exParamsM : SNode := .mk "formal_parameters" "()" ⟨1, 3⟩ ⟨1, 5⟩ [] []

/-- Example: body of `m`, containing the nested class. -/
def exBlockM : SNode := .mk "statement_block" "" ⟨1, 6⟩ ⟨5, 3⟩ [] [exClassInner]

/-- Example: the outer method definition `m`. -/
def exMethodM : SNode :=
  .mk "method_definition" "m() ..." ⟨1, 2⟩ ⟨5, 3⟩ [("name", 0)]
    [exIdM, exParamsM, exBlockM]

/-- Example: identifier of the outer class `Outer`. -/
def exIdOuter : SNode := .mk "identifier" "Outer" ⟨0, 6⟩ ⟨0, 11⟩ [] []

/-- Example: class body of `Outer`. -/
def exBodyOuter : SNode := .mk "class_body" "" ⟨0, 12⟩ ⟨6, 1⟩ [] [exMethodM]

/-- Example: the outer class declaration `Outer`. -/
def exClassOuter : SNode :=
  .mk "class_declaration" "class Outer ..." ⟨0, 0⟩ ⟨6, 1⟩ [("name", 1)]
    [.mk "class" "class" ⟨0, 0⟩ ⟨0, 5⟩ [] [], exIdOuter, exBodyOuter]

/-- Example: the parsed file. -/
def exProgram : SNode := .mk "program" "" ⟨0, 0⟩ ⟨7, 0⟩ [] [exClassOuter]

/-- Specification-side definition (for comparison with the code): the
method definitions *directly* scoped in a class's own body — the
`method_definition` descendants whose ancestor chain strictly below
the class node passes through no further `class_declaration`.  The
spec's grouping rule says a ClassGroup contains exactly these. -/
def specDirectMethods (c : SNode) : List SNode :=
  ((c.preorderAnc []).filter (fun p =>
    p.1.type == "method_definition" &&
      !((p.2.dropLast).any (fun a => a.type == "class_declaration")))).map
    (fun p => p.1)

/-! ## Concrete example: an arrow function passed as a call argument

Parse shape of `f(() => 1)`; the `arguments` node's children are the
parenthesis tokens and the argument, as the library reports them. -/

/-- Example: the arrow function argument of `f(() => 1)`. -/
def exArrow : SNode :=
  .mk "arrow_function" "() => 1" ⟨0, 2⟩ ⟨0, 9⟩ []
    [.mk "formal_parameters" "()" ⟨0, 2⟩ ⟨0, 4⟩ [] [],
     .mk "=>" "=>" ⟨0, 5⟩ ⟨0, 7⟩ [] [],
     .mk "number" "1" ⟨0, 8⟩ ⟨0, 9⟩ [] []]

/-- Example: the opening parenthesis token of the argument list. -/
def exLPar : SNode := .mk "(" "(" ⟨0, 1⟩ ⟨0, 2⟩ [] []

/-- Example: the closing parenthesis token of the argument list. -/
def exRPar : SNode := .mk ")" ")" ⟨0, 9⟩ ⟨0, 10⟩ [] []

/-- Example: the `arguments` node of `f(() => 1)`: children are
`(`, the arrow function, `)`. -/
def exArgs : SNode :=
  .mk "arguments" "(() => 1)" ⟨0, 1⟩ ⟨0, 10⟩ [] [exLPar, exArrow, exRPar]

/-- Example: the callee identifier `f`. -/
def exCalleeF : SNode := .mk "identifier" "f" ⟨0, 0⟩ ⟨0, 1⟩ [] []

/-- Example: the call expression `f(() => 1)`. -/
def exCall : SNode :=
  .mk "call_expression" "f(() => 1)" ⟨0, 0⟩ ⟨0, 10⟩
    [("function", 0), ("arguments", 1)] [exCalleeF, exArgs]

/-- Example: a call expression whose `function` field is unavailable
(no callee text can be read). -/
def exCallNoCallee : SNode :=
  .mk "call_expression" "f(() => 1)" ⟨0, 0⟩ ⟨0, 10⟩
    [("arguments", 0)] [exArgs]

/-- Example: a `new` expression wrapping the same argument list (the
node enclosing an `arguments` node that is not a `call_expression`). -/
def exNew : SNode :=
  .mk "new_expression" "new F(() => 1)" ⟨0, 0⟩ ⟨0, 14⟩
    [("constructor", 0), ("arguments", 1)]
    [.mk "identifier" "F" ⟨0, 4⟩ ⟨0, 5⟩ [] [], exArgs]

/-- The values written to path `p` by a write list, in write order. -/
def writesFor (p : String) (ws : List (String × JSNum)) : List JSNum :=
  (ws.filter (fun kv => kv.1 == p)).map (fun kv => kv.2)

/-! ## Well-formedness of refresh inputs

The XML reader never produces an empty `<line>` array (an absent list
is `undefined`), and a well-formed LCOV record carries integer
`0 ≤ hit ≤ found` with `found > 0`; these are the well-formedness
conditions under which every stored coverage value is an integer
percentage. -/

/-- Well-formedness of one parsed LCOV record (vacuous for records
with no `lines` slot, which contribute no write). -/
def lcovRecordWF (r : LcovRecord) : Bool :=
  match r.lines with
  | none => true
  | some l =>
    match l.found, l.hit with
    | .int f, .int h => decide (0 < f) && decide (0 ≤ h) && decide (h ≤ f)
    | _, _ => false

/-- Well-formedness of one refresh's report inputs. -/
def refreshInputWF (inp : RefreshInput) : Bool :=
  (match inp.cobertura with
   | none => true
   | some classes => classes.all (fun cls =>
      match cls.line with
      | none => true
      | some lines => !lines.isEmpty)) &&
  (match inp.lcov with
   | none => true
   | some content => (parseLcov content).all lcovRecordWF)

/-- A sequence of `refresh` calls over the (initially empty) shared
map: each call contributes its three format batches in its arrival
order, entries are never removed. -/
def refreshSeq (m : CovMap) : List (RefreshInput × List Fmt) → CovMap
  | [] => m
  | (inp, order) :: rest => refreshSeq (refreshFinal m inp order) rest

/-- Example: a refresh whose only report is an LCOV file with a
zero `LF` count. -/
def exBadLcovInput : RefreshInput :=
  { ws := "/w", cobertura := none, jacoco := none,
    lcov := some "SF:a.js\nLF:0\nLH:0\nend_of_record" }

/-- Example: a refresh whose only report is a well-formed LCOV file
(15 of 20 lines hit). -/
def exGoodLcovInput : RefreshInput :=
  { ws := "/w", cobertura := none, jacoco := none,
    lcov := some "SF:a.js\nLF:20\nLH:15\nend_of_record" }

/-- Example: a refresh with a Cobertura report covering `a` at 50%
and an LCOV report covering `b.js` at 75% (disjoint paths). -/
def exC5Input : RefreshInput :=
  { ws := "/w",
    cobertura := some [{ filename := "a", line := some [some "1", some "0"] }],
    jacoco := none,
    lcov := some "SF:b.js\nLF:4\nLH:3\nend_of_record" }

/-- Example: a refresh where the Cobertura report scores `a.js` at
40% and the LCOV report scores the same `a.js` at 60%. -/
def exC6Input : RefreshInput :=
  { ws := "/w",
    cobertura := some
      [{ filename := "a.js",
         line := some [some "1", some "2", some "0", some "0", some "0"] }],
    jacoco := none,
    lcov := some "SF:a.js\nLF:5\nLH:3\nend_of_record" }

/-- The states observable during one refresh are the prefix
applications of the per-format write batches. -/
def applyBatches (m : CovMap) (bs : List (List (String × JSNum))) : CovMap :=
  bs.foldl applyWrites m

/-- Example: a workspace tree with a top-level `node_modules`
directory and another one nested inside `src`. -/
def exFS : List FSEntry :=
  [.dir "node_modules" [.file "evil.js"],
   .dir "src" [.file "a.ts", .dir "node_modules" [.file "inner.js"]]]

/-! ## Theorems -/

theorem SNode.preorder_def (t x : String) (s e : Pos) (f : List (String × Nat))
    (cs : List SNode) :
    SNode.preorder (.mk t x s e f cs) = .mk t x s e f cs :: SNode.preorderList cs := rfl

theorem SNode.mem_preorderList {x : SNode} {l : List SNode} :
    x ∈ SNode.preorderList l ↔ ∃ c ∈ l, x ∈ c.preorder := by
  induction l with
  | nil => simp [SNode.preorderList]
  | cons c cs ih =>
    simp only [SNode.preorderList, List.mem_append, ih, List.mem_cons]
    constructor
    · rintro (h | ⟨d, hd, hx⟩)
      · exact ⟨c, Or.inl rfl, h⟩
      · exact ⟨d, Or.inr hd, hx⟩
    · rintro ⟨d, rfl | hd, hx⟩
      · exact Or.inl hx
      · exact Or.inr ⟨d, hd, hx⟩

theorem SNode.self_mem_preorder (n : SNode) : n ∈ n.preorder := by
  cases n; rw [SNode.preorder_def]; exact List.mem_cons_self _ _

theorem SNode.mem_preorder_of_child {n c x : SNode} (hc : c ∈ n.children)
    (hx : x ∈ c.preorder) : x ∈ n.preorder := by
  cases n with
  | mk t tx s e f cs =>
    rw [SNode.preorder_def]
    exact List.mem_cons_of_mem _ (SNode.mem_preorderList.mpr ⟨c, hc, hx⟩)

theorem SNode.mem_preorder_elim {n x : SNode} (h : x ∈ n.preorder) :
    x = n ∨ ∃ c ∈ n.children, x ∈ c.preorder := by
  cases n with
  | mk t tx s e f cs =>
    rw [SNode.preorder_def] at h
    rcases List.mem_cons.mp h with h | h
    · exact Or.inl h
    · exact Or.inr (SNode.mem_preorderList.mp h)

theorem SNode.sizeOf_children_lt (n : SNode) (c : SNode) (h : c ∈ n.children) :
    sizeOf c < sizeOf n := by
  cases n with
  | mk t tx s e f cs =>
    have h1 : sizeOf c < sizeOf cs := List.sizeOf_lt_of_mem h
    simp only [SNode.mk.sizeOf_spec]
    omega

/-- Transitivity of subtree membership: every node of a descendant's
subtree is a node of the ancestor's subtree. -/
theorem SNode.preorder_trans : ∀ (n y x : SNode),
    y ∈ n.preorder → x ∈ y.preorder → x ∈ n.preorder
  | n, y, x, hy, hx => by
    rcases SNode.mem_preorder_elim hy with rfl | ⟨c, hc, hyc⟩
    · exact hx
    · have _ : sizeOf c < sizeOf n := SNode.sizeOf_children_lt n c hc
      exact SNode.mem_preorder_of_child hc (SNode.preorder_trans c y x hyc hx)
termination_by n => sizeOf n

theorem SNode.mem_descendantsOfType {n x : SNode} {t : String} :
    x ∈ n.descendantsOfType t ↔ x ∈ n.preorder ∧ x.type = t := by
  simp [SNode.descendantsOfType, List.mem_filter]

/-- Members of a descendant's `descendantsOfType` listing are members
of the ancestor's listing: `descendantsOfType` is recursive over the
whole subtree. -/
theorem SNode.descendantsOfType_trans {n y x : SNode} {t : String}
    (hy : y ∈ n.preorder) (hx : x ∈ y.descendantsOfType t) :
    x ∈ n.descendantsOfType t := by
  rw [SNode.mem_descendantsOfType] at hx ⊢
  exact ⟨SNode.preorder_trans n y x hy hx.1, hx.2⟩

/-- C1, counterexample: on the nested-class example file, listing the
methods of all surfaced groups (`Outer`, `Inner`) returns the inner
method `n` (start position `(3,6)`) twice — once inside the outer
class's group and once inside its own — so the collected start
positions are not duplicate-free, contradicting the claimed
one-symbol-per-position property. -/
theorem c1_unique_positions_counterexample :
    allGroupPositions exProgram = [⟨1, 2⟩, ⟨3, 6⟩, ⟨3, 6⟩] ∧
      ¬ (allGroupPositions exProgram).Nodup := by
  constructor
  · decide
  · decide

/-- C1, amended: group listings are obtained through the library's
recursive `descendantsOfType`, so whenever one named class node lies
inside another named class node, every method definition of the inner
class is returned both by the inner class's group listing and by the
outer class's group listing — duplicate positions across groups occur
exactly through such nesting. -/
theorem c1_nested_method_listed_in_both_groups
    (root outer inner m : SNode) (nO nI : String)
    (hO : (root.descendantsOfType "class_declaration").find?
      (fun n => ((n.childForFieldName "name").map SNode.text) == some nO) = some outer)
    (hI : (root.descendantsOfType "class_declaration").find?
      (fun n => ((n.childForFieldName "name").map SNode.text) == some nI) = some inner)
    (hio : inner ∈ outer.preorder)
    (hm : m ∈ inner.descendantsOfType "method_definition")
    (hgO : nO ≠ "Global Scope") (hgI : nI ≠ "Global Scope") :
    m ∈ getMethodsForClassNodes root nO ∧ m ∈ getMethodsForClassNodes root nI := by
  have hbO : (nO == "Global Scope") = false := beq_eq_false_iff_ne.mpr hgO
  have hbI : (nI == "Global Scope") = false := beq_eq_false_iff_ne.mpr hgI
  constructor
  · simp only [getMethodsForClassNodes, hbO, Bool.false_eq_true, if_false, hO]
    exact SNode.descendantsOfType_trans hio hm
  · simp only [getMethodsForClassNodes, hbI, Bool.false_eq_true, if_false, hI]
    exact hm

/-- C1, witness for the amended theorem: on the example file the
inner method `n` is listed both under `Outer` and under `Inner`. -/
theorem c1_nested_method_listed_in_both_groups_witness :
    exMethodN ∈ getMethodsForClassNodes exProgram "Outer" ∧
      exMethodN ∈ getMethodsForClassNodes exProgram "Inner" :=
  c1_nested_method_listed_in_both_groups exProgram exClassOuter exClassInner
    exMethodN "Outer" "Inner" rfl rfl
    (by repeat first | exact List.Mem.head _ | apply List.Mem.tail)
    (List.Mem.head _) (by decide) (by decide)

/-- C2, counterexample: on the nested-class example file the group
map entry for `Outer` holds the methods at positions `(1,2)` and
`(3,6)` — the second being the method `n` of the *nested* class
`Inner` — while the directly-scoped methods of `Outer` are the single
method at `(1,2)`; the surfaced group is therefore not "exactly the
method definitions lexically scoped directly in that class's own
body". -/
theorem c2_direct_scope_counterexample :
    ((jsMapGet (classGroupsMap exProgram) "Outer").getD []).map SNode.startPos
        = [⟨1, 2⟩, ⟨3, 6⟩] ∧
      (specDirectMethods exClassOuter).map SNode.startPos = [⟨1, 2⟩] ∧
      ((jsMapGet (classGroupsMap exProgram) "Outer").getD []).map SNode.startPos ≠
        (specDirectMethods exClassOuter).map SNode.startPos := by
  refine ⟨by decide, by decide, by decide⟩

/-- C2, amended: the group listed for a named class consists of *all*
`method_definition` descendants of the class node — the recursive
`descendantsOfType` collection — so methods of classes nested inside
it are members of the outer class's group as well. -/
theorem c2_group_is_recursive_descendants
    (root c m : SNode) (className : String)
    (hg : className ≠ "Global Scope")
    (hfind : (root.descendantsOfType "class_declaration").find?
      (fun n => ((n.childForFieldName "name").map SNode.text) == some className)
      = some c) :
    (m ∈ getMethodsForClassNodes root className ↔
        m ∈ c.descendantsOfType "method_definition") ∧
      (∀ inner ∈ c.descendantsOfType "class_declaration",
        ∀ x ∈ inner.descendantsOfType "method_definition",
          x ∈ getMethodsForClassNodes root className) := by
  have hb : (className == "Global Scope") = false := beq_eq_false_iff_ne.mpr hg
  have hlist : getMethodsForClassNodes root className
      = c.descendantsOfType "method_definition" := by
    simp only [getMethodsForClassNodes, hb, Bool.false_eq_true, if_false, hfind]
  constructor
  · rw [hlist]
  · intro inner hinner x hx
    rw [hlist]
    exact SNode.descendantsOfType_trans (SNode.mem_descendantsOfType.mp hinner).1 hx

/-- C2, witness for the amended theorem: on the example file, `n`
(method of the nested class) is a member of the group listed for
`Outer`. -/
theorem c2_group_is_recursive_descendants_witness :
    exMethodN ∈ getMethodsForClassNodes exProgram "Outer" :=
  (c2_group_is_recursive_descendants exProgram exClassOuter exMethodN "Outer"
      (by decide) rfl).2 exClassInner
    (by repeat first | exact List.Mem.head _ | apply List.Mem.tail)
    exMethodN (List.Mem.head _)

/-- C3, counterexample: a `.tsx` file is parsed with the *JavaScript*
grammar by all three parsing operations — the selection compares the
lowercased extension against `.ts` only — contradicting the claimed
`.tsx to TypeScript-grammar` mapping. -/
theorem c3_tsx_grammar_counterexample :
    getMethodsFromFileGrammar "a.tsx" = Grammar.javascript ∧
      getClassGroupsGrammar "a.tsx" = Grammar.javascript ∧
      getMethodsForClassGrammar "a.tsx" = Grammar.javascript ∧
      Grammar.javascript ≠ Grammar.typescript :=
  ⟨rfl, rfl, rfl, by decide⟩

/-- C3, amended: in all three parsing operations, grammar selection
depends only on the lowercased `path.extname` of the file, and maps
exactly the extension `.ts` to the TypeScript grammar; every other
extension — `.tsx`, `.js` and `.jsx` included — selects the
JavaScript grammar. -/
theorem c3_grammar_by_extension_only (p q : String) :
    (getMethodsFromFileGrammar p = getClassGroupsGrammar p ∧
      getMethodsForClassGrammar p = getClassGroupsGrammar p) ∧
      (jsToLower (extname p) = jsToLower (extname q) →
        getClassGroupsGrammar p = getClassGroupsGrammar q) ∧
      (jsToLower (extname p) = ".ts" →
        getClassGroupsGrammar p = Grammar.typescript) ∧
      (jsToLower (extname p) ≠ ".ts" →
        getClassGroupsGrammar p = Grammar.javascript) := by
  refine ⟨⟨rfl, rfl⟩, ?_, ?_, ?_⟩
  · intro h
    simp only [getClassGroupsGrammar, h]
  · intro h
    simp [getClassGroupsGrammar, h]
  · intro h
    simp only [getClassGroupsGrammar, beq_eq_false_iff_ne.mpr h,
      Bool.false_eq_true, if_false]

/-- C3, witness for the amended theorem at concrete extensions. -/
theorem c3_grammar_by_extension_only_witness :
    getClassGroupsGrammar "dir/a.tsx" = getClassGroupsGrammar "other/b.tsx" ∧
      getClassGroupsGrammar "x.ts" = Grammar.typescript ∧
      getClassGroupsGrammar "y.jsx" = Grammar.javascript :=
  ⟨(c3_grammar_by_extension_only "dir/a.tsx" "other/b.tsx").2.1 rfl,
    (c3_grammar_by_extension_only "x.ts" "x.ts").2.2.1 rfl,
    (c3_grammar_by_extension_only "y.jsx" "y.jsx").2.2.2 (by decide)⟩

/-- C7: evaluated at a failing read (an unreadable source file),
`getClassGroups` catches the failure and returns the empty item list,
but `getMethodsForClass` — whose body performs the same
`fs.readFileSync` with no try/catch — propagates the error to its
caller instead of returning an empty method list. -/
theorem c7_read_error_propagates :
    getClassGroupsChecked (Except.error ()) = [] ∧
      getMethodsForClassChecked (Except.error ()) "Global Scope"
        = Except.error () ∧
      ∀ ms : List SNode,
        getMethodsForClassChecked (Except.error ()) "Global Scope" ≠ Except.ok ms :=
  ⟨rfl, rfl, fun _ h => Except.noConfusion h⟩

/-- Index computation behind the callback label: when the children
list of the `arguments` node splits as `pre ++ node :: post` with no
earlier child sharing the node's identity key, `indexOf` returns the
length of `pre` — a count over *all* children, parenthesis and comma
tokens included. -/
theorem jsIndexOf_append (node : SNode) (pre post : List SNode)
    (hpre : ∀ m ∈ pre, nodeKey m ≠ nodeKey node) :
    jsIndexOf (pre ++ node :: post) node = (pre.length : Int) := by
  unfold jsIndexOf
  have hfind : (pre ++ node :: post).findIdx? (fun m => nodeKey m == nodeKey node)
      = some pre.length := by
    induction pre with
    | nil => simp [List.findIdx?_cons]
    | cons a as ih =>
      have ha : (nodeKey a == nodeKey node) = false :=
        beq_eq_false_iff_ne.mpr (hpre a (List.mem_cons_self _ _))
      have has : ∀ m ∈ as, nodeKey m ≠ nodeKey node :=
        fun m hm => hpre m (List.mem_cons_of_mem _ hm)
      simp [List.findIdx?_cons, ha, ih has]
  rw [hfind]

/-- C8, counterexample: in `f(() => 1)` the arrow function is the
only (0-based position 0) argument, yet its derived label is
`f callback[1]` — the index counts the `(` token — not the claimed
`f callback[0]`; and with an unavailable callee name the label is
`" callback[1]"` (empty callee text kept, index and brackets
retained), not the claimed `"callback"`. -/
theorem c8_arg_index_counterexample :
    methodLabelFromFile "f(() => 1)" exArrow (some exArgs) (some exCall)
        = "f callback[1]" ∧
      "f callback[1]" ≠ "f callback[0]" ∧
      methodLabelFromFile "f(() => 1)" exArrow (some exArgs) (some exCallNoCallee)
        = " callback[1]" ∧
      " callback[1]" ≠ "callback" :=
  ⟨rfl, by decide, rfl, by decide⟩

/-- C8, amended: for an arrow function that is a child of an
`arguments` node, the per-file label is
`"<calleeText> callback[<childIndex>]"` where `childIndex` is the
position of the arrow among *all* children of the `arguments` node
(punctuation tokens included) and an unavailable callee text
contributes the empty string; the label is the bare `"callback"`
exactly when the node *enclosing* the `arguments` node is not a
`call_expression`; and the per-group listing
(`createMethodTreeItem`) labels such an arrow with the empty
string. -/
theorem c8_callback_label (content : String) (node p : SNode)
    (hnode : node.type = "arrow_function") (hp : p.type = "arguments") :
    (∀ g fn pre post, g.type = "call_expression" →
        g.childForFieldName "function" = some fn →
        p.children = pre ++ node :: post →
        (∀ m ∈ pre, nodeKey m ≠ nodeKey node) →
        methodLabelFromFile content node (some p) (some g)
          = jsOr (some fn.text) "" ++ " callback[" ++ natToStr pre.length ++ "]") ∧
      (∀ g, g.type ≠ "call_expression" →
        methodLabelFromFile content node (some p) (some g) = "callback") ∧
      createMethodItemLabel node (some p) = "" := by
  refine ⟨?_, ?_, ?_⟩
  · intro g fn pre post hg hfn hchildren hpre
    have hidx : jsIndexOf p.children node = (pre.length : Int) := by
      rw [hchildren]; exact jsIndexOf_append node pre post hpre
    simp [methodLabelFromFile, hnode, hp, hg, hfn, hidx, intToStr,
      Int.not_lt, Int.natCast_nonneg]
    rw [if_neg (Int.not_lt.mpr (Int.natCast_nonneg _))]
  · intro g hg
    have hbg : (g.type == "call_expression") = false := beq_eq_false_iff_ne.mpr hg
    simp [methodLabelFromFile, hnode, hp, hbg]
  · simp [createMethodItemLabel, hnode, hp]

/-- C8, witness for the amended theorem: the concrete labels of the
`f(() => 1)` example under a call, under a `new` expression, and in
the per-group listing. -/
theorem c8_callback_label_witness :
    methodLabelFromFile "f(() => 1)" exArrow (some exArgs) (some exCall)
        = "f callback[1]" ∧
      methodLabelFromFile "f(() => 1)" exArrow (some exArgs) (some exNew)
        = "callback" ∧
      createMethodItemLabel exArrow (some exArgs) = "" :=
  ⟨((c8_callback_label "f(() => 1)" exArrow exArgs rfl rfl).1 exCall exCalleeF
      [exLPar] [exRPar] rfl rfl rfl (by decide)).trans rfl,
    (c8_callback_label "f(() => 1)" exArrow exArgs rfl rfl).2.1 exNew (by decide),
    (c8_callback_label "f(() => 1)" exArrow exArgs rfl rfl).2.2⟩

/-! ## Map lemmas: JavaScript `Map.set` is last-write-wins -/

theorem jsMapSet_cons_ne {α : Type} (a : String × α) (m : List (String × α))
    (k : String) (v : α) (h : (a.1 == k) = false) :
    jsMapSet (a :: m) k v = a :: jsMapSet m k v := by
  unfold jsMapSet
  simp only [List.any_cons, h, Bool.false_or, List.map_cons, Bool.false_eq_true,
    if_false]
  by_cases hm : m.any (fun kv => kv.1 == k)
  · simp [hm]
  · simp [hm]

theorem jsMapGet_cons_ne {α : Type} (a : String × α) (m : List (String × α))
    (p : String) (h : (a.1 == p) = false) :
    jsMapGet (a :: m) p = jsMapGet m p := by
  unfold jsMapGet
  rw [List.find?_cons_of_neg _ (by simp [h])]

theorem jsMapGet_cons_self {α : Type} (a : String × α) (m : List (String × α))
    (p : String) (h : (a.1 == p) = true) :
    jsMapGet (a :: m) p = some a.2 := by
  unfold jsMapGet
  rw [@List.find?_cons_of_pos _ (fun kv => kv.1 == p) a m h]
  rfl

theorem jsMapGet_set_self {α : Type} :
    ∀ (m : List (String × α)) (k : String) (v : α),
      jsMapGet (jsMapSet m k v) k = some v := by
  intro m k v
  induction m with
  | nil => simp [jsMapSet, jsMapGet]
  | cons a m ih =>
    by_cases ha : (a.1 == k) = true
    · have hk : a.1 = k := by simpa using ha
      unfold jsMapSet
      simp only [List.any_cons, ha, Bool.true_or, if_true, List.map_cons, ha,
        if_true]
      exact jsMapGet_cons_self (k, v) _ k (by simp)
    · have ha' : (a.1 == k) = false := by simpa using ha
      rw [jsMapSet_cons_ne a m k v ha', jsMapGet_cons_ne a _ k ha']
      exact ih

theorem jsMapGet_map_set_ne {α : Type} (m : List (String × α)) (k p : String)
    (v : α) (h : (k == p) = false) :
    jsMapGet (m.map (fun kv => if kv.1 == k then (k, v) else kv)) p
      = jsMapGet m p := by
  induction m with
  | nil => rfl
  | cons a m ih =>
    by_cases ha : (a.1 == k) = true
    · have hk : a.1 = k := by simpa using ha
      simp only [List.map_cons, ha, if_true]
      rw [jsMapGet_cons_ne (k, v) _ p h,
        jsMapGet_cons_ne a m p (by rw [hk]; exact h)]
      exact ih
    · have ha' : (a.1 == k) = false := by simpa using ha
      simp only [List.map_cons, ha', Bool.false_eq_true, if_false]
      by_cases hap : (a.1 == p) = true
      · rw [jsMapGet_cons_self a _ p hap, jsMapGet_cons_self a m p hap]
      · have hap' : (a.1 == p) = false := by simpa using hap
        rw [jsMapGet_cons_ne a _ p hap', jsMapGet_cons_ne a m p hap']
        exact ih

theorem jsMapGet_append_single_ne {α : Type} (k p : String) (v : α)
    (h : (k == p) = false) :
    ∀ (m : List (String × α)), jsMapGet (m ++ [(k, v)]) p = jsMapGet m p := by
  intro m
  induction m with
  | nil =>
    unfold jsMapGet
    rw [List.nil_append, List.find?_cons_of_neg _ (by simp [h])]
  | cons a m ih =>
    by_cases hap : (a.1 == p) = true
    · rw [List.cons_append, jsMapGet_cons_self a _ p hap,
        jsMapGet_cons_self a m p hap]
    · have hap' : (a.1 == p) = false := by simpa using hap
      rw [List.cons_append, jsMapGet_cons_ne a _ p hap',
        jsMapGet_cons_ne a m p hap']
      exact ih

theorem jsMapGet_set_ne {α : Type} (m : List (String × α)) (k p : String) (v : α)
    (h : (k == p) = false) :
    jsMapGet (jsMapSet m k v) p = jsMapGet m p := by
  unfold jsMapSet
  by_cases hm : (m.any (fun kv => kv.1 == k)) = true
  · simp only [hm, if_true]
    exact jsMapGet_map_set_ne m k p v h
  · simp only [hm, Bool.false_eq_true, if_false]
    exact jsMapGet_append_single_ne k p v h m

/-- Pointwise reading of batch application: the final value at `p` is
the last write to `p`, carried over the whole write list by a left
fold. -/
theorem applyWrites_get (ws : List (String × JSNum)) :
    ∀ (m : CovMap) (p : String),
      getFileCoverage (applyWrites m ws) p
        = ws.foldl (fun acc kv => if kv.1 == p then some kv.2 else acc)
            (getFileCoverage m p) := by
  induction ws with
  | nil => intro m p; rfl
  | cons kv ws ih =>
    intro m p
    show getFileCoverage (applyWrites (jsMapSet m kv.1 kv.2) ws) p = _
    rw [ih]
    by_cases h : (kv.1 == p) = true
    · have hk : kv.1 = p := by simpa using h
      simp only [List.foldl_cons, h, if_true]
      rw [getFileCoverage, hk, jsMapGet_set_self]
    · have h' : (kv.1 == p) = false := by simpa using h
      simp only [List.foldl_cons, h', Bool.false_eq_true, if_false]
      rw [getFileCoverage, jsMapGet_set_ne m kv.1 p kv.2 h']
      rfl

theorem foldl_lastWrite (p : String) :
    ∀ (ws : List (String × JSNum)) (init : Option JSNum),
      ws.foldl (fun acc kv => if kv.1 == p then some kv.2 else acc) init
        = match (writesFor p ws).getLast? with
          | some v => some v
          | none => init := by
  intro ws
  induction ws with
  | nil => intro init; rfl
  | cons kv ws ih =>
    intro init
    by_cases h : (kv.1 == p) = true
    · have hcons : writesFor p (kv :: ws) = kv.2 :: writesFor p ws := by
        simp [writesFor, List.filter_cons, h]
      rw [List.foldl_cons, hcons, List.getLast?_cons]
      simp only [h, if_true]
      rw [ih]
      cases hlast : (writesFor p ws).getLast? <;> simp [hlast]
    · have h' : (kv.1 == p) = false := by simpa using h
      have hcons : writesFor p (kv :: ws) = writesFor p ws := by
        simp [writesFor, List.filter_cons, h']
      rw [List.foldl_cons, hcons]
      simp only [h', Bool.false_eq_true, if_false]
      exact ih init

/-- Batch application over a batch list equals application of the
concatenated writes. -/
theorem applyWrites_batches (bs : List (List (String × JSNum))) :
    ∀ (m : CovMap),
      bs.foldl applyWrites m = applyWrites m bs.flatten := by
  induction bs with
  | nil => intro m; rfl
  | cons b bs ih =>
    intro m
    simp only [List.foldl_cons, List.flatten_cons]
    rw [ih]
    simp only [applyWrites]
    rw [List.foldl_append]

/-! ## Bounds of the rounded percentage -/

/-- Rounding bound: for integer operands `0 ≤ c ≤ t` with `0 < t`,
`Math.round((c / t) * 100)` is an integer in `[0, 100]`. -/
theorem roundPct_bounds (c t : Int) (h0 : 0 ≤ c) (h1 : c ≤ t) (h2 : 0 < t) :
    ∃ n : Int, roundPct (.int c) (.int t) = .int n ∧ 0 ≤ n ∧ n ≤ 100 := by
  refine ⟨Int.fdiv (200 * c + t) (2 * t), ?_, ?_, ?_⟩
  · show (if t = 0 then
        if c = 0 then JSNum.nan else if 0 < c then JSNum.inf else JSNum.ninf
      else JSNum.int (Int.fdiv (200 * c + t) (2 * t)))
      = JSNum.int (Int.fdiv (200 * c + t) (2 * t))
    rw [if_neg (by omega)]
  · rw [Int.fdiv_eq_ediv _ (by omega)]
    exact Int.ediv_nonneg (by omega) (by omega)
  · rw [Int.fdiv_eq_ediv _ (by omega)]
    calc (200 * c + t) / (2 * t) ≤ (t + 2 * t * 100) / (2 * t) :=
          Int.ediv_le_ediv (by omega) (by omega)
      _ = t / (2 * t) + 100 := Int.add_mul_ediv_left t 100 (by omega)
      _ = 0 + 100 := by rw [Int.ediv_eq_zero_of_lt (by omega) (by omega)]
      _ ≤ 100 := by omega

/-- Rounding bound, `isIntPercent` form. -/
theorem isIntPercent_roundPct (c t : Int) (h0 : 0 ≤ c) (h1 : c ≤ t) (h2 : 0 < t) :
    isIntPercent (roundPct (.int c) (.int t)) = true := by
  obtain ⟨n, hn, hlo, hhi⟩ := roundPct_bounds c t h0 h1 h2
  rw [hn]
  simp [isIntPercent, hlo, hhi]

/-- Every write of `updateFromLcov` stems from a parsed record with a
`lines` slot and carries its rounded hit/found percentage. -/
theorem lcovWrites_mem (ws : String) :
    ∀ (rs : List LcovRecord) (kv : String × JSNum), kv ∈ lcovWrites ws rs →
      ∃ r ∈ rs, ∃ l, r.lines = some l ∧ kv.2 = roundPct l.hit l.found := by
  intro rs
  induction rs with
  | nil => intro kv hkv; cases hkv
  | cons r rest ih =>
    intro kv hkv
    unfold lcovWrites at hkv
    rcases hl : r.lines with _ | l
    · rw [hl] at hkv
      obtain ⟨r', hr', hrest⟩ := ih kv hkv
      exact ⟨r', List.mem_cons_of_mem _ hr', hrest⟩
    · rw [hl] at hkv
      rcases hf : r.file with _ | f
      · rw [hf] at hkv
        cases hkv
      · rw [hf] at hkv
        rcases List.mem_cons.mp hkv with rfl | hkv'
        · exact ⟨r, List.mem_cons_self _ _, l, hl, rfl⟩
        · obtain ⟨r', hr', hrest⟩ := ih kv hkv'
          exact ⟨r', List.mem_cons_of_mem _ hr', hrest⟩

/-- Under well-formed inputs, every value any of the three formats
writes is an integer percentage in `[0, 100]`. -/
theorem fmtWrites_isIntPercent (inp : RefreshInput)
    (hwf : refreshInputWF inp = true) (f : Fmt) :
    ∀ kv ∈ fmtWrites inp f, isIntPercent kv.2 = true := by
  have hwf1 := (Bool.and_eq_true_iff.mp hwf).1
  have hwf2 := (Bool.and_eq_true_iff.mp hwf).2
  intro kv hkv
  cases f with
  | cobertura =>
    rcases hin : inp.cobertura with _ | classes
    · simp only [fmtWrites, updateFromCoberturaWrites, hin] at hkv
      cases hkv
    · simp only [fmtWrites, updateFromCoberturaWrites, hin] at hkv
      obtain ⟨cls, hcls, hkv'⟩ := List.mem_flatMap.mp hkv
      rcases hline : cls.line with _ | lines
      · rw [hline] at hkv'
        cases hkv'
      · rw [hline] at hkv'
        rcases List.mem_cons.mp hkv' with rfl | h
        · rw [hin] at hwf1
          have hne := List.all_eq_true.mp hwf1 cls hcls
          rw [hline] at hne
          have hlen : 0 < (lines.length : Int) := by
            have : lines ≠ [] := by
              intro hcon
              rw [hcon] at hne
              simp [List.isEmpty] at hne
            have := List.length_pos.mpr this
            omega
          exact isIntPercent_roundPct _ _ (by positivity)
            (by
              have := List.length_filter_le (fun l => jsGtZero (jsParseInt l)) lines
              omega)
            hlen
        · cases h
  | jacoco =>
    rcases hin : inp.jacoco with _ | pkgs
    · simp only [fmtWrites, updateFromJacocoWrites, hin] at hkv
      cases hkv
    · simp only [fmtWrites, updateFromJacocoWrites, hin] at hkv
      obtain ⟨pkg, hpkg, hkv'⟩ := List.mem_flatMap.mp hkv
      obtain ⟨sf, hsf, hkv''⟩ := List.mem_flatMap.mp hkv'
      by_cases hlen : sf.line.length > 0
      · rw [if_pos hlen] at hkv''
        rcases List.mem_cons.mp hkv'' with rfl | h
        · exact isIntPercent_roundPct _ _ (by positivity)
            (by
              have := List.length_filter_le
                (fun l => jsGtZero (jsParseInt l.1) || jsGtZero (jsParseInt l.2))
                sf.line
              omega)
            (by omega)
        · cases h
      · rw [if_neg hlen] at hkv''
        cases hkv''
  | lcov =>
    rcases hin : inp.lcov with _ | content
    · simp only [fmtWrites, updateFromLcovWrites, hin] at hkv
      cases hkv
    · simp only [fmtWrites, updateFromLcovWrites, hin] at hkv
      obtain ⟨r, hr, l, hl, hval⟩ := lcovWrites_mem inp.ws (parseLcov content) kv hkv
      rw [hin] at hwf2
      have hrwf := List.all_eq_true.mp hwf2 r hr
      simp only [lcovRecordWF, hl] at hrwf
      rcases hfound : l.found with fInt | _ | _ | _ <;> simp only [hfound] at hrwf <;>
        try cases hrwf
      rcases hhit : l.hit with hInt | _ | _ | _ <;> simp only [hhit] at hrwf <;>
        try cases hrwf
      have h1 : 0 < fInt := by
        have := (Bool.and_eq_true_iff.mp (Bool.and_eq_true_iff.mp hrwf).1).1
        exact of_decide_eq_true this
      have h2 : 0 ≤ hInt := by
        have := (Bool.and_eq_true_iff.mp (Bool.and_eq_true_iff.mp hrwf).1).2
        exact of_decide_eq_true this
      have h3 : hInt ≤ fInt := by
        have := (Bool.and_eq_true_iff.mp hrwf).2
        exact of_decide_eq_true this
      rw [hval, hhit, hfound]
      exact isIntPercent_roundPct hInt fInt h2 h3 h1

/-- Entries after a `Map.set` come from the old map or are the pair
just written. -/
theorem mem_jsMapSet {α : Type} (m : List (String × α)) (k : String) (v : α)
    (kv : String × α) (h : kv ∈ jsMapSet m k v) : kv ∈ m ∨ kv = (k, v) := by
  unfold jsMapSet at h
  by_cases hm : (m.any (fun kv => kv.1 == k)) = true
  · rw [if_pos hm] at h
    obtain ⟨a, ha, hfa⟩ := List.mem_map.mp h
    by_cases hak : (a.1 == k) = true
    · rw [if_pos hak] at hfa
      exact Or.inr hfa.symm
    · rw [if_neg hak] at hfa
      exact Or.inl (hfa ▸ ha)
  · rw [if_neg hm] at h
    rcases List.mem_append.mp h with h | h
    · exact Or.inl h
    · rcases List.mem_cons.mp h with rfl | h
      · exact Or.inr rfl
      · cases h

/-- Entries after a batch application come from the old map or from
the batch. -/
theorem mem_applyWrites (ws : List (String × JSNum)) :
    ∀ (m : CovMap) (kv : String × JSNum), kv ∈ applyWrites m ws →
      kv ∈ m ∨ kv ∈ ws := by
  induction ws with
  | nil => intro m kv h; exact Or.inl h
  | cons w ws ih =>
    intro m kv h
    rcases ih (jsMapSet m w.1 w.2) kv h with h1 | h1
    · rcases mem_jsMapSet m w.1 w.2 kv h1 with h2 | h2
      · exact Or.inl h2
      · exact Or.inr (by rw [h2]; exact List.mem_cons_self _ _)
    · exact Or.inr (List.mem_cons_of_mem _ h1)

/-- Every entry of the map after a refresh sequence over well-formed
inputs is an integer percentage. -/
theorem refreshSeq_isIntPercent :
    ∀ (seq : List (RefreshInput × List Fmt)) (m : CovMap),
      (∀ s ∈ seq, refreshInputWF s.1 = true) →
      (∀ kv ∈ m, isIntPercent kv.2 = true) →
      ∀ kv ∈ refreshSeq m seq, isIntPercent kv.2 = true := by
  intro seq
  induction seq with
  | nil => intro m _ hm kv hkv; exact hm kv hkv
  | cons s rest ih =>
    intro m hwf hm kv hkv
    rcases s with ⟨inp, order⟩
    refine ih (refreshFinal m inp order)
      (fun x hx => hwf x (List.mem_cons_of_mem _ hx)) ?_ kv hkv
    have hwf0 : refreshInputWF inp = true := hwf (inp, order) (List.mem_cons_self _ _)
    clear hkv hwf ih
    unfold refreshFinal
    induction order generalizing m with
    | nil => exact hm
    | cons f fs ihf =>
      intro kv2 hkv2
      rw [List.foldl_cons] at hkv2
      refine ihf (applyWrites m (fmtWrites inp f)) ?_ kv2 hkv2
      intro kv3 hkv3
      rcases mem_applyWrites (fmtWrites inp f) m kv3 hkv3 with h | h
      · exact hm kv3 h
      · exact fmtWrites_isIntPercent inp hwf0 f kv3 h

/-- A successful map lookup returns the value of a stored entry. -/
theorem jsMapGet_mem {α : Type} (m : List (String × α)) (p : String) (v : α)
    (h : jsMapGet m p = some v) : ∃ kv ∈ m, kv.2 = v := by
  unfold jsMapGet at h
  rcases hf : m.find? (fun kv => kv.1 == p) with _ | kv
  · rw [hf] at h
    cases h
  · rw [hf] at h
    exact ⟨kv, List.mem_of_find?_eq_some hf, by injection h⟩

/-- C4, counterexample: refreshing over the LCOV report
`SF:a.js / LF:0 / LH:0 / end_of_record` stores
`Math.round((0 / 0) * 100) = NaN` for `/w/a.js`, so `getFileCoverage`
returns a defined value that is not an integer in `[0, 100]`. -/
theorem c4_nan_counterexample :
    getFileCoverage (refreshFinal [] exBadLcovInput
        [Fmt.cobertura, Fmt.jacoco, Fmt.lcov]) "/w/a.js" = some JSNum.nan ∧
      isIntPercent JSNum.nan = false :=
  ⟨rfl, rfl⟩

/-- C4, amended: over any sequence of refreshes whose report inputs
are well-formed (every Cobertura class with line data has at least
one line, as the XML reader guarantees, and every LCOV record that
stores line data has integer `0 < found` and `0 ≤ hit ≤ found`),
`getFileCoverage` returns `undefined` for a path with no data and an
integer in `[0, 100]` otherwise; a malformed LCOV record (for
example `LF:0`) can instead store `NaN` or an out-of-range value. -/
theorem c4_integer_percentage (seq : List (RefreshInput × List Fmt)) (p : String)
    (hwf : ∀ s ∈ seq, refreshInputWF s.1 = true) :
    getFileCoverage (refreshSeq [] seq) p = none ∨
      ∃ n : Int, getFileCoverage (refreshSeq [] seq) p = some (.int n) ∧
        0 ≤ n ∧ n ≤ 100 := by
  rcases hg : getFileCoverage (refreshSeq [] seq) p with _ | v
  · exact Or.inl rfl
  · right
    obtain ⟨kv, hkv, hv⟩ := jsMapGet_mem _ p v hg
    have hP := refreshSeq_isIntPercent seq [] hwf (fun kv h => by cases h) kv hkv
    rw [hv] at hP
    rcases v with n | _ | _ | _ <;> simp [isIntPercent] at hP
    exact ⟨n, rfl, hP.1, hP.2⟩

/-- C4, witness: the amended theorem applied to one well-formed LCOV
refresh. -/
theorem c4_integer_percentage_witness :
    getFileCoverage (refreshSeq []
        [(exGoodLcovInput, [Fmt.cobertura, Fmt.jacoco, Fmt.lcov])]) "/w/a.js"
      = none ∨
      ∃ n : Int,
        getFileCoverage (refreshSeq []
          [(exGoodLcovInput, [Fmt.cobertura, Fmt.jacoco, Fmt.lcov])]) "/w/a.js"
          = some (.int n) ∧ 0 ≤ n ∧ n ≤ 100 :=
  c4_integer_percentage [(exGoodLcovInput, [Fmt.cobertura, Fmt.jacoco, Fmt.lcov])]
    "/w/a.js" (by decide)

/-- C5, counterexample: with a Cobertura entry for `/w/a` and an LCOV
entry for `/w/b.js`, the in-place map updates make an intermediate
state — holding some but not all of the refresh's entries — readable
between format batches; this holds under the listed arrival order and
under every one of the six possible arrival orders of the three
concurrent format promises. -/
theorem c5_partial_map_observable_counterexample :
    refreshStates [] exC5Input [Fmt.cobertura, Fmt.jacoco, Fmt.lcov]
      = [[], [("/w/a", .int 50)], [("/w/a", .int 50)],
         [("/w/a", .int 50), ("/w/b.js", .int 75)]] ∧
      (allOrders.all (fun ord =>
        ((refreshStates [] exC5Input ord).drop 1).dropLast.any (fun s =>
          decide (s ≠ (refreshStates [] exC5Input ord).headD []) &&
            decide (s ≠ (refreshStates [] exC5Input ord).getLastD [])))) = true :=
  ⟨rfl, by decide⟩

/-- C5, amended: during one refresh the shared map is updated in
place, one format batch at a time: the refresh passes through
`order.length + 1` observable states, and the state after `k`
batches is the initial map overwritten by exactly the first `k`
batches — so a reader scheduled between batches observes a map
holding some but not all of the refresh's entries. -/
theorem c5_incremental_publication (inp : RefreshInput) :
    ∀ (order : List Fmt) (m : CovMap),
      (refreshStates m inp order).length = order.length + 1 ∧
      (∀ k, k ≤ order.length →
        (refreshStates m inp order).getD k []
          = applyBatches m ((order.take k).map (fmtWrites inp))) := by
  intro order
  induction order with
  | nil =>
    intro m
    refine ⟨rfl, ?_⟩
    intro k hk
    have hk0 : k = 0 := Nat.le_zero.mp hk
    subst hk0
    rfl
  | cons f fs ih =>
    intro m
    constructor
    · show (m :: refreshStates (applyWrites m (fmtWrites inp f)) inp fs).length = _
      rw [List.length_cons, (ih (applyWrites m (fmtWrites inp f))).1]
      simp [List.length_cons]
    · intro k hk
      cases k with
      | zero => rfl
      | succ k2 =>
        show (refreshStates (applyWrites m (fmtWrites inp f)) inp fs).getD k2 []
          = _
        rw [(ih (applyWrites m (fmtWrites inp f))).2 k2 (by
          simpa using hk)]
        rfl

/-- C5, witness: after the first batch of the example refresh the
observable map is the first-batch prefix application. -/
theorem c5_incremental_publication_witness :
    (refreshStates [] exC5Input [Fmt.cobertura, Fmt.jacoco, Fmt.lcov]).getD 1 []
      = applyBatches []
        (([Fmt.cobertura, Fmt.jacoco, Fmt.lcov].take 1).map (fmtWrites exC5Input)) :=
  (c5_incremental_publication exC5Input [Fmt.cobertura, Fmt.jacoco, Fmt.lcov]
    []).2 1 (by decide)

/-- C6: for any arrival order of the format batches and any path
written at least once during the refresh, the final map entry equals
the last value written to that path under that order — a value one of
the formats actually wrote (never an average or other merge). -/
theorem c6_last_format_wins (m : CovMap) (inp : RefreshInput) (order : List Fmt)
    (p : String) (v : JSNum)
    (hlast : (writesFor p ((order.map (fmtWrites inp)).flatten)).getLast? = some v) :
    getFileCoverage (refreshFinal m inp order) p = some v ∧
      v ∈ writesFor p ((order.map (fmtWrites inp)).flatten) := by
  have h1 : refreshFinal m inp order
      = applyWrites m ((order.map (fmtWrites inp)).flatten) := by
    unfold refreshFinal
    rw [← applyWrites_batches, List.foldl_map]
  rw [h1, applyWrites_get, foldl_lastWrite, hlast]
  exact ⟨rfl, List.mem_of_mem_getLast? hlast⟩

/-- C6, witness: when Cobertura writes 40 and LCOV later writes 60
for the same `/w/a.js`, the final entry is 60 (the last write), not
the average 50. -/
theorem c6_last_format_wins_witness :
    getFileCoverage (refreshFinal [] exC6Input
        [Fmt.cobertura, Fmt.jacoco, Fmt.lcov]) "/w/a.js" = some (JSNum.int 60) ∧
      JSNum.int 60 ∈ writesFor "/w/a.js"
        (([Fmt.cobertura, Fmt.jacoco, Fmt.lcov].map (fmtWrites exC6Input)).flatten) :=
  c6_last_format_wins [] exC6Input [Fmt.cobertura, Fmt.jacoco, Fmt.lcov]
    "/w/a.js" (.int 60) (by decide)

/-- C10: an `LH` line reaching the loop while the current record has
no `lines` slot (no `LF` seen yet) leaves the state unchanged, so an
`LH` that precedes its record's `LF` is discarded: the record parses
with `hit = 0` and the stored percentage is `round(0 / found) = 0`,
whereas the same lines in `LF`-first order store 75; and a record
with `SF` but no `LF` parses with no `lines` slot and contributes no
coverage entry at all. -/
theorem c10_lcov_order_sensitivity :
    (∀ (st : LcovState) (r : LcovRecord) (rest : List LcovRecord) (line : String),
        st.isOpen = true → st.recsRev = r :: rest → r.lines = none →
        (jsSplit ':' (jsTrim line)).getD 0 "" = "LH" →
        lcovStep st line = st) ∧
      parseLcov "SF:a.js\nLH:15\nLF:20\nend_of_record"
        = [{ file := some "a.js", lines := some { found := .int 20, hit := .int 0 } }] ∧
      updateFromLcovWrites "/w" (some "SF:a.js\nLH:15\nLF:20\nend_of_record")
        = [("/w/a.js", .int 0)] ∧
      updateFromLcovWrites "/w" (some "SF:a.js\nLF:20\nLH:15\nend_of_record")
        = [("/w/a.js", .int 75)] ∧
      parseLcov "SF:b.js\nend_of_record"
        = [{ file := some "b.js", lines := none }] ∧
      updateFromLcovWrites "/w" (some "SF:b.js\nend_of_record") = [] := by
  refine ⟨?_, rfl, rfl, rfl, rfl, rfl⟩
  intro st r rest line hopen hrecs hlines hmk
  simp only [lcovStep, hmk, hopen, hrecs, hlines]
  rfl

/-- C10, witness: the general `LH`-before-`LF` step lemma applied to
a concrete open record. -/
theorem c10_lcov_order_sensitivity_witness :
    lcovStep { recsRev := [{ file := some "a.js", lines := none }], isOpen := true }
        "LH:15"
      = { recsRev := [{ file := some "a.js", lines := none }], isOpen := true } :=
  c10_lcov_order_sensitivity.1
    { recsRev := [{ file := some "a.js", lines := none }], isOpen := true }
    { file := some "a.js", lines := none } [] "LH:15" rfl rfl rfl rfl

/-- Appending a component keeps the `node_modules` substring guard
satisfied. -/
theorem pathNM_append (p : List String) (n : String)
    (h : pathIncludesNodeModules p = true) :
    pathIncludesNodeModules (p ++ [n]) = true := by
  simp only [pathIncludesNodeModules, List.any_append, Bool.or_eq_true]
  exact Or.inl h

/-- Appending the sentinel component itself triggers the
`node_modules` substring guard. -/
theorem pathNM_append_sentinel (p : List String) :
    pathIncludesNodeModules (p ++ ["node_modules"]) = true := by
  simp only [pathIncludesNodeModules, List.any_append, Bool.or_eq_true]
  exact Or.inr (by decide)

theorem sizeOf_FSEntry_lt_cons (e : FSEntry) (es : List FSEntry) :
    sizeOf es < sizeOf (e :: es) := by
  simp only [List.cons.sizeOf_spec]
  omega

theorem sizeOf_sub_lt_cons (name : String) (sub es : List FSEntry) :
    sizeOf sub < sizeOf (FSEntry.dir name sub :: es) := by
  simp only [List.cons.sizeOf_spec, FSEntry.dir.sizeOf_spec]
  omega

/-- Below a path that triggers the `node_modules` guard, no listing
ever surfaces an item: every deeper `getFileItems` call returns `[]`
at its line-400 guard, so the sentinel's descendants are never
visited. -/
theorem collectDeepList_of_nm (isTest : String → Bool) (isIgn : List String → Bool) :
    ∀ (entries : List FSEntry) (p : List String),
      pathIncludesNodeModules p = true →
      collectDeepList isTest isIgn p entries = []
  | [], p, h => rfl
  | .file n :: es, p, h => by
    have _ := sizeOf_FSEntry_lt_cons (FSEntry.file n) es
    rw [collectDeepList, collectDeepEntry,
      collectDeepList_of_nm isTest isIgn es p h, List.nil_append]
  | .dir name sub :: es, p, h => by
    have _ := sizeOf_sub_lt_cons name sub es
    have _ := sizeOf_FSEntry_lt_cons (FSEntry.dir name sub) es
    rw [collectDeepList, collectDeepEntry, getFileItems,
      if_pos (pathNM_append p name h),
      collectDeepList_of_nm isTest isIgn sub (p ++ [name]) (pathNM_append p name h),
      collectDeepList_of_nm isTest isIgn es p h]
    rfl
termination_by entries => sizeOf entries

/-- Every item one directory-entry contributes carries the path of
that entry (the directory path extended by the entry's name), and the
entry's name is not the sentinel. -/
theorem fsItemsEntry_path (isTest : String → Bool) (isIgn : List String → Bool)
    (dirPath : List String) (e : FSEntry) :
    ∀ item ∈ fsItemsEntry isTest isIgn dirPath e,
      ∃ nm, item.path = dirPath ++ [nm] ∧ (nm == "node_modules") = false := by
  cases e with
  | file name =>
    intro item hitem
    rw [fsItemsEntry] at hitem
    by_cases hskip : (name == "node_modules" || isTest name) = true
    · rw [if_pos hskip] at hitem
      cases hitem
    · rw [if_neg hskip] at hitem
      have hnm : (name == "node_modules") = false := by
        rcases Bool.or_eq_false_iff.mp (Bool.eq_false_iff.mpr hskip) with ⟨h1, _⟩
        exact h1
      by_cases hig : isIgn (dirPath ++ [name]) = true
      · rw [if_pos hig] at hitem
        cases hitem
      · rw [if_neg hig] at hitem
        by_cases hext : ((jsToLower (extname name) == ".js" ||
            jsToLower (extname name) == ".ts" ||
            jsToLower (extname name) == ".jsx" ||
            jsToLower (extname name) == ".tsx") && !isTest name) = true
        · rw [if_pos hext] at hitem
          rcases List.mem_cons.mp hitem with rfl | h
          · exact ⟨name, rfl, hnm⟩
          · cases h
        · rw [if_neg hext] at hitem
          cases hitem
  | dir name sub =>
    intro item hitem
    rw [fsItemsEntry] at hitem
    by_cases hskip : (name == "node_modules" || isTest name) = true
    · rw [if_pos hskip] at hitem
      cases hitem
    · rw [if_neg hskip] at hitem
      have hnm : (name == "node_modules") = false := by
        rcases Bool.or_eq_false_iff.mp (Bool.eq_false_iff.mpr hskip) with ⟨h1, _⟩
        exact h1
      by_cases hig : isIgn (dirPath ++ [name]) = true
      · rw [if_pos hig] at hitem
        cases hitem
      · rw [if_neg hig] at hitem
        by_cases hsub : ((if pathIncludesNodeModules (dirPath ++ [name]) = true
            then ([] : List FileItem)
            else fsItemsList isTest isIgn (dirPath ++ [name]) sub).isEmpty) = true
        · rw [if_pos hsub] at hitem
          cases hitem
        · rw [if_neg hsub] at hitem
          rcases List.mem_cons.mp hitem with rfl | h
          · exact ⟨name, rfl, hnm⟩
          · cases h

/-- Every item of a directory's entry loop carries such a path. -/
theorem fsItemsList_path (isTest : String → Bool) (isIgn : List String → Bool)
    (dirPath : List String) :
    ∀ (entries : List FSEntry), ∀ item ∈ fsItemsList isTest isIgn dirPath entries,
      ∃ nm, item.path = dirPath ++ [nm] ∧ (nm == "node_modules") = false := by
  intro entries
  induction entries with
  | nil => intro item hitem; cases hitem
  | cons e es ih =>
    intro item hitem
    rw [fsItemsList] at hitem
    rcases List.mem_append.mp hitem with h | h
    · exact fsItemsEntry_path isTest isIgn dirPath e item h
    · exact ih item h

/-- A clean path extended by a non-sentinel component stays clean. -/
theorem cleanPath_append (p : List String) (nm : String)
    (hp : cleanPath p = true) (hnm : (nm == "node_modules") = false) :
    cleanPath (p ++ [nm]) = true := by
  simp only [cleanPath, List.all_append, Bool.and_eq_true] at hp ⊢
  exact ⟨hp, by simp [hnm]⟩

/-- Every item of any listing reachable below a clean directory path
has a clean path (no `node_modules` component). -/
theorem collectDeepList_clean (isTest : String → Bool) (isIgn : List String → Bool) :
    ∀ (entries : List FSEntry) (p : List String), cleanPath p = true →
      ∀ item ∈ collectDeepList isTest isIgn p entries,
        cleanPath item.path = true
  | [], p, hp => by intro item hitem; cases hitem
  | .file n :: es, p, hp => by
    have _ := sizeOf_FSEntry_lt_cons (FSEntry.file n) es
    intro item hitem
    rw [collectDeepList, collectDeepEntry, List.nil_append] at hitem
    exact collectDeepList_clean isTest isIgn es p hp item hitem
  | .dir name sub :: es, p, hp => by
    have _ := sizeOf_sub_lt_cons name sub es
    have _ := sizeOf_FSEntry_lt_cons (FSEntry.dir name sub) es
    intro item hitem
    rw [collectDeepList, collectDeepEntry] at hitem
    rcases List.mem_append.mp hitem with h | h
    swap
    · exact collectDeepList_clean isTest isIgn es p hp item h
    by_cases hnm : (name == "node_modules") = true
    · have hpath : pathIncludesNodeModules (p ++ [name]) = true := by
        rw [show name = "node_modules" by simpa using hnm]
        exact pathNM_append_sentinel p
      rw [getFileItems, if_pos hpath,
        collectDeepList_of_nm isTest isIgn sub (p ++ [name]) hpath] at h
      cases h
    · have hnm' : (name == "node_modules") = false := Bool.eq_false_iff.mpr hnm
      have hp' : cleanPath (p ++ [name]) = true := cleanPath_append p name hp hnm'
      rcases List.mem_append.mp h with h1 | h1
      · rw [getFileItems] at h1
        by_cases hg : pathIncludesNodeModules (p ++ [name]) = true
        · rw [if_pos hg] at h1
          cases h1
        · rw [if_neg hg] at h1
          obtain ⟨nm2, hpath2, hnm2⟩ :=
            fsItemsList_path isTest isIgn (p ++ [name]) sub item h1
          rw [hpath2]
          exact cleanPath_append _ nm2 hp' hnm2
      · exact collectDeepList_clean isTest isIgn sub (p ++ [name]) hp' item h1
termination_by entries => sizeOf entries

/-- C9: starting anywhere outside a dependency directory, no item the
directory listing can ever surface — at any expansion depth — has a
path inside a `node_modules` directory; and a listing rooted at a
path that triggers the `node_modules` guard yields nothing at all, so
the sentinel's descendants are never visited. -/
theorem c9_node_modules_never_listed (isTest : String → Bool)
    (isIgn : List String → Bool) :
    (∀ (p : List String) (entries : List FSEntry), cleanPath p = true →
      ∀ item ∈ collectAllItems isTest isIgn p entries,
        cleanPath item.path = true) ∧
      (∀ (p : List String) (entries : List FSEntry),
        pathIncludesNodeModules p = true →
        collectAllItems isTest isIgn p entries = []) := by
  constructor
  · intro p entries hp item hitem
    rw [collectAllItems] at hitem
    rcases List.mem_append.mp hitem with h | h
    · rw [getFileItems] at h
      by_cases hg : pathIncludesNodeModules p = true
      · rw [if_pos hg] at h
        cases h
      · rw [if_neg hg] at h
        obtain ⟨nm, hpath, hnm⟩ := fsItemsList_path isTest isIgn p entries item h
        rw [hpath]
        exact cleanPath_append p nm hp hnm
    · exact collectDeepList_clean isTest isIgn entries p hp item h
  · intro p entries hg
    rw [collectAllItems, getFileItems, if_pos hg,
      collectDeepList_of_nm isTest isIgn entries p hg]
    rfl

/-- C9, witness: on the example tree the surfaced `src/a.ts` item has
a clean path, and a listing rooted inside `node_modules` is empty. -/
theorem c9_node_modules_never_listed_witness :
    cleanPath (FileItem.path
        { label := "a.ts", kind := ItemKind.file, path := ["w", "src", "a.ts"] })
      = true ∧
      collectAllItems (fun _ => false) (fun _ => false) ["w", "node_modules"]
        [FSEntry.file "evil.js"] = [] :=
  ⟨(c9_node_modules_never_listed (fun _ => false) (fun _ => false)).1 ["w"] exFS
      (by decide)
      { label := "a.ts", kind := ItemKind.file, path := ["w", "src", "a.ts"] }
      (by decide),
    (c9_node_modules_never_listed (fun _ => false) (fun _ => false)).2
      ["w", "node_modules"] [FSEntry.file "evil.js"] (by decide)⟩
